import Mathlib

/-!
Verification of the SSH Operations Hub core (ssh_operations_hub.py) against its
natural-language specification.  Python strings are modelled as lists of
characters; the helpers below model the Python string and integer operations
that the source uses.  The modelling is ASCII-faithful: the rare Unicode
leniencies of Python (non-ASCII digits accepted by str.isdigit and int) are
outside the model; the regex end anchor, which also matches just before one
final newline, is modelled exactly.
-/

/-- Python strings are modelled as lists of characters. -/
abbrev Str := List Char

/-- Decimal value of a list of ASCII digit characters, most significant first.
Models int() on an all-digits string. -/
def digitsVal (s : Str) : Nat :=
  s.foldl (fun a c => 10 * a + (c.toNat - 48)) 0

/-- Model of Python str.isdigit for ASCII strings: nonempty and all digits. -/
def pyIsdigit (s : Str) : Bool :=
  !s.isEmpty && s.all Char.isDigit

/-- Characters stripped by Python str.strip() with no argument (ASCII whitespace). -/
def pyWs (c : Char) : Bool :=
  c == ' ' || c == '\t' || c == '\n' || c == '\r' || c == '\x0b' || c == '\x0c'

/-- Model of Python str.strip(): drop leading and trailing whitespace. -/
def pyStripWs (s : Str) : Str :=
  ((s.dropWhile pyWs).reverse.dropWhile pyWs).reverse

/-- Model of Python str.rstrip(c): drop every trailing occurrence of c. -/
def pyRstrip (c : Char) (s : Str) : Str :=
  (s.reverse.dropWhile (fun x => x == c)).reverse

/-- Model of Python s.split(sep) for a one-character separator: split on every
occurrence, keeping empty pieces, and yield one piece even for the empty string. -/
def pySplitChar (sep : Char) : Str → List Str
  | [] => [[]]
  | c :: rest =>
    if c = sep then [] :: pySplitChar sep rest
    else
      match pySplitChar sep rest with
      | [] => [[c]]
      | r :: rs => (c :: r) :: rs

/-- Model of Python s.split(sep, 1) at the first occurrence of sep; when sep
does not occur the second component is empty (the source only calls this under
a containment guard). -/
def pySplitFirst (sep : Char) : Str → Str × Str
  | [] => ([], [])
  | c :: rest =>
    if c = sep then ([], rest)
    else
      let r := pySplitFirst sep rest
      (c :: r.1, r.2)

/-- Model of Python sep.join(pieces) for a one-character separator. -/
def joinSep (sep : Char) : List Str → Str
  | [] => []
  | [x] => x
  | x :: y :: xs => x ++ sep :: joinSep sep (y :: xs)

/-- True when no two consecutive characters are both underscores. -/
def noDoubleUnderscore (s : Str) : Bool :=
  (s.zip s.tail).all (fun p => !(p.1 == '_' && p.2 == '_'))

/-- The digit part of a Python integer literal: nonempty digits, with single
underscores allowed strictly between digits. -/
def intBodyOk (s : Str) : Bool :=
  !s.isEmpty && s.all (fun c => c.isDigit || c == '_') &&
  !(s.head? == some '_') && !(s.getLast? == some '_') && noDoubleUnderscore s

/-- Value of a valid Python integer digit part (underscores removed). -/
def pyIntCore (s : Str) : Option Nat :=
  if intBodyOk s then some (digitsVal (s.filter Char.isDigit)) else none

/-- Model of Python int(s): optional surrounding whitespace, an optional sign,
then digits possibly separated by single underscores; None models ValueError. -/
def pyInt (s : Str) : Option Int :=
  let t := pyStripWs s
  if t.head? = some '+' then (pyIntCore t.tail).map Int.ofNat
  else if t.head? = some '-' then (pyIntCore t.tail).map (fun n => -(n : Int))
  else (pyIntCore t).map Int.ofNat

/-- Model of Python str(n) for an integer n. -/
def str (n : Int) : Str :=
  if n < 0 then '-' :: Nat.toDigits 10 (-n).toNat else Nat.toDigits 10 n.toNat

/-- Model of _expand_range (ssh_operations_hub.py lines 118 to 129): expand an
IP range token into individual IP suffix strings. -/
def expand_range (range_str : Str) : List Str :=
  if range_str.contains '-' then
    match pyInt (pySplitFirst '-' range_str).1, pyInt (pySplitFirst '-' range_str).2 with
    | some s, some e =>
      if s ≤ e then (List.range (e + 1 - s).toNat).map (fun (k : Nat) => str (s + (k : Int)))
      else if pyIsdigit range_str then [range_str] else []
    | some _, none => if pyIsdigit range_str then [range_str] else []
    | none, _ => if pyIsdigit range_str then [range_str] else []
  else if pyIsdigit range_str then [range_str] else []

example : expand_range "1-3".data = ["1".data, "2".data, "3".data] := by decide
example : expand_range "5-3".data = [] := by decide
example : expand_range "abc".data = [] := by decide
example : expand_range "5".data = ["5".data] := by decide
example : expand_range "0--0".data = ["0".data] := by decide
example : expand_range "+3-5".data = ["3".data, "4".data, "5".data] := by decide
example : pyInt "  12".data = some 12 := by decide
example : pyInt "1_0".data = some 10 := by decide
example : pyInt "1__0".data = none := by decide
example : pyInt "-07".data = some (-7) := by decide

/-- Boolean prefix test on character lists: startsWith p l is true when p is a
prefix of l. -/
def startsWith : Str → Str → Bool
  | [], _ => true
  | _ :: _, [] => false
  | p :: ps, c :: cs => p == c && startsWith ps cs

/-- Fuel-driven worker for pyReplaceList; the fuel always suffices when it is
at least the length of the subject string. -/
def replaceFuel (pat rep : Str) : Nat → Str → Str
  | _, [] => []
  | 0, l => l
  | fuel + 1, c :: rest =>
    if startsWith pat (c :: rest) then
      rep ++ replaceFuel pat rep fuel (rest.drop (pat.length - 1))
    else
      c :: replaceFuel pat rep fuel rest

/-- Model of Python s.replace(pat, rep) for a nonempty pattern: replace every
non-overlapping occurrence, scanning left to right. -/
def pyReplaceList (pat rep s : Str) : Str :=
  replaceFuel pat rep s.length s

/-- Model of _substitute_variables (lines 225 to 227): replace every occurrence
of the literal placeholder in the text by the client number. -/
def substitute_variables (text : Str) (num : Str) : Str :=
  pyReplaceList "$CLIENT_NUM".data num text

/-- Model of _validate_ip_suffix (lines 131 to 133): the suffix must be all
digits and a member of the allowed list. -/
def validate_ip_suffix (allowed : List Str) (ip_suffix : Str) : Bool :=
  pyIsdigit ip_suffix && allowed.contains ip_suffix

/-- One group of the prefix pattern: one to three ASCII digits.  Together three
dot-separated groups model the regex used by the source. -/
def groupDigits (g : Str) : Bool :=
  !g.isEmpty && g.length ≤ 3 && g.all Char.isDigit

/-- The format test of the source regex on the already-stripped string: exactly
three dot-separated groups of one to three digits. -/
def formatThreeGroups (p : Str) : Bool :=
  match pySplitChar '.' p with
  | [a, b, c] => groupDigits a && groupDigits b && groupDigits c
  | _ => false

/-- The octet range check of line 146: zero at most int(octet) at most 255.
The none branch is unreachable from validate_ip_pfx, whose regex guard makes
every group parse (int cannot raise there). -/
def octetOk (g : Str) : Bool :=
  match pyInt g with
  | some v => decide (0 ≤ v) && decide (v ≤ 255)
  | none => false

/-- Model of _validate_ip_prefix (lines 135 to 146): drop every trailing dot,
require the regex match, then require every octet value in [0, 255].  The
regex end anchor matches at the end of the string or just before one final
newline, so a stripped string of the form three-groups-plus-newline is also
accepted; int() then strips that newline from the last octet. -/
def validate_ip_pfx (p : Str) : Bool :=
  let q := pyRstrip '.' p
  if formatThreeGroups q || (q.getLast? == some '\n' && formatThreeGroups q.dropLast) then
    (pySplitChar '.' q).all octetOk
  else false

/-- The error message appended by _parse_ips for an invalid suffix. -/
def errMsg (s : Str) : Str :=
  "Invalid or disallowed IP suffix ".data ++ ('\'' :: (s ++ ['\'']))

/-- The warning message logged by _parse_ips for a duplicate suffix. -/
def warnMsg (s : Str) : Str :=
  "Skipping duplicate IP suffix ".data ++ ('\'' :: (s ++ ['\'']))

/-- The loop of _parse_ips (lines 148 to 166) with the seen set made explicit.
Returns (valid_ips, errors, warnings); the warnings component models the
logger.warning calls of the source. -/
def parse_ips_loop (pre : Str) (allowed : List Str) :
    List Str → List Str → List Str × List Str × List Str
  | [], _ => ([], [], [])
  | sfx :: rest, seen =>
    if !validate_ip_suffix allowed sfx then
      let r := parse_ips_loop pre allowed rest seen
      (r.1, errMsg sfx :: r.2.1, r.2.2)
    else if seen.contains sfx then
      let r := parse_ips_loop pre allowed rest seen
      (r.1, r.2.1, warnMsg sfx :: r.2.2)
    else
      let r := parse_ips_loop pre allowed rest (sfx :: seen)
      ((pre ++ '.' :: sfx) :: r.1, r.2.1, r.2.2)

/-- Model of _parse_ips: validate the suffixes against the allowed list under
the configured network part pre, starting from an empty seen set. -/
def parse_ips (pre : Str) (allowed : List Str) (ip_suffixes : List Str) :
    List Str × List Str × List Str :=
  parse_ips_loop pre allowed ip_suffixes []

/-- Outcome of one invocation of the external remote-shell client, as observed
by subprocess.run: a timeout, a failure to launch the binary (FileNotFoundError,
which the source does not catch), or completion with an exit status and the
captured output streams. -/
inductive ProcResult where
  | timeout
  | launchFailure
  | completed (returncode : Int) (stdout : Str) (stderr : Str)
deriving DecidableEq

deriving instance DecidableEq for Except

/-- Result of _execute_ssh_command: either the returned (success, message) pair
or an uncaught Python exception, together with how many times the remote-shell
client was invoked. -/
structure ExecOutcome where
  result : Except Unit (Bool × Str)
  calls : Nat
deriving DecidableEq

/-- The client number of a host: ip.split(".")[-1] as in lines 179 and 245. -/
def client_num (ip : Str) : Str :=
  (pySplitChar '.' ip).getLastD []

/-- The label of a host as built on line 180. -/
def make_label (ip : Str) : Str :=
  "[Client ".data ++ client_num ip ++ " | ".data ++ ip ++ "]".data

/-- Model of _execute_ssh_command (lines 177 to 223).  The shutdown flag is the
value of shutdown_event.is_set() at entry; probe and cmdRun are the outcomes
the two subprocess.run invocations would have.  The probe (check=True, output
discarded) raises CalledProcessError exactly on a nonzero exit status; both
that and TimeoutExpired are classified as connection failures, while a launch
failure propagates out of the function uncaught. -/
def execute_ssh_command (shutdown : Bool) (user ip command : Str)
    (probe cmdRun : ProcResult) : ExecOutcome :=
  let label := make_label ip
  if shutdown then ⟨.ok (false, label ++ " Aborted due to shutdown".data), 0⟩
  else
    match probe with
    | .timeout =>
      ⟨.ok (false, label ++ " Error: Could not establish SSH connection to ".data
        ++ user ++ "@".data ++ ip), 1⟩
    | .launchFailure => ⟨.error (), 1⟩
    | .completed rc _ _ =>
      if rc = 0 then
        match cmdRun with
        | .timeout => ⟨.ok (false, label ++ " Error: Command timed out".data), 2⟩
        | .launchFailure => ⟨.error (), 2⟩
        | .completed rc2 out err =>
          if rc2 = 0 then
            let lines := ((pySplitChar '\n' (pyStripWs out)).filter
              (fun l => !l.isEmpty)).map (fun l => label ++ ' ' :: l)
            ⟨.ok (true, joinSep '\n' lines), 2⟩
          else
            let errorOutput := if err.isEmpty then "Unknown error".data else pyStripWs err
            ⟨.ok (false, label ++ " Error: Command failed with status ".data ++ str rc2
              ++ '\n' :: (label ++ " Output: ".data ++ errorOutput)), 2⟩
      else
        ⟨.ok (false, label ++ " Error: Could not establish SSH connection to ".data
          ++ user ++ "@".data ++ ip), 1⟩

example :
    execute_ssh_command false "testuser".data "10.200.142.1".data "echo test".data
      (.completed 0 [] []) (.completed 0 "Hello World\nLine 2".data []) =
    ⟨.ok (true, "[Client 1 | 10.200.142.1] Hello World\n[Client 1 | 10.200.142.1] Line 2".data), 2⟩ := by
  decide

/-- The task built for one host: (user, ip, command) after substitution, as on
lines 244 to 255. -/
def make_task (userTmpl ip commandTmpl : Str) : Str × Str × Str :=
  (substitute_variables userTmpl (client_num ip), ip,
   substitute_variables commandTmpl (client_num ip))

/-- The task-construction loop of execute_commands (lines 240 to 255): append a
task for every primary host, then one for every secondary host. -/
def execute_commands_tasks (primary_ips secondary_ips : List Str)
    (primary_user secondary_user command : Str) : List (Str × Str × Str) :=
  let tasks := primary_ips.foldl
    (fun tasks ip => tasks ++ [make_task primary_user ip command]) []
  secondary_ips.foldl
    (fun tasks ip => tasks ++ [make_task secondary_user ip command]) tasks

/-- The result loop of execute_commands (lines 265 to 278): for each completed
task, stop if the shutdown flag is set, report a nonempty message, and report
an unexpected-error line for an uncaught exception (its Python text is not
modelled).  Completion order is abstracted as submission order; the claims
settled here do not depend on it. -/
def process_results (shutdown : Bool) : List (Str × ExecOutcome) → List Str
  | [] => []
  | (ip, o) :: rest =>
    if shutdown then []
    else
      (match o.result with
       | .ok (_, output) => if !output.isEmpty then [output] else []
       | .error _ => [make_label ip ++ " Unexpected error".data]) ++
      process_results shutdown rest

/-- Model of execute_commands (lines 229 to 278): the guard clauses, the task
loop, the dispatch of every task through _execute_ssh_command, and the result
loop.  proc assigns to every task the outcomes of its probe and command
invocations; the shutdown flag is its value for the whole run.  Returns the
emitted output lines. -/
def execute_commands (shutdown : Bool) (primary_ips secondary_ips : List Str)
    (primary_user secondary_user command : Str)
    (proc : Str × Str × Str → ProcResult × ProcResult) : List Str :=
  if primary_ips.isEmpty && secondary_ips.isEmpty then []
  else if command.isEmpty then []
  else
    let tasks := execute_commands_tasks primary_ips secondary_ips
      primary_user secondary_user command
    process_results shutdown (tasks.map (fun t =>
      (t.2.1, execute_ssh_command shutdown t.1 t.2.1 t.2.2 (proc t).1 (proc t).2)))

example :
    execute_commands_tasks ["10.200.142.1".data, "10.200.142.2".data] []
      "user$CLIENT_NUM".data "admin".data "echo $CLIENT_NUM".data =
    [("user1".data, "10.200.142.1".data, "echo 1".data),
     ("user2".data, "10.200.142.2".data, "echo 2".data)] := by decide

example :
    parse_ips "10.200.142".data ["1".data, "2".data] ["1".data, "1".data, "2".data] =
    (["10.200.142.1".data, "10.200.142.2".data], [], [warnMsg "1".data]) := by decide

example : validate_ip_pfx "192.168.1".data = true := by decide
example : validate_ip_pfx "192.168.1.".data = true := by decide
example : validate_ip_pfx "192.168.1..".data = true := by decide
example : validate_ip_pfx "192.168.1\n".data = true := by decide
example : validate_ip_pfx "192.168.1\n\n".data = false := by decide
example : validate_ip_pfx "192.168.1\n.".data = true := by decide
example : validate_ip_pfx "192.168.1.\n".data = false := by decide
example : validate_ip_pfx "256.1.1".data = false := by decide
example : validate_ip_pfx "192.168".data = false := by decide
example : substitute_variables "$CLIENT_NUMBER".data "5".data = "5BER".data := by decide

lemma ne_of_isDigit {c : Char} (d : Char) (hd : d.isDigit = false)
    (h : c.isDigit = true) : c ≠ d := by
  intro he
  subst he
  rw [hd] at h
  exact Bool.noConfusion h

lemma pyWs_of_isDigit {c : Char} (h : c.isDigit = true) : pyWs c = false := by
  have h1 := ne_of_isDigit ' ' (by decide) h
  have h2 := ne_of_isDigit '\t' (by decide) h
  have h3 := ne_of_isDigit '\n' (by decide) h
  have h4 := ne_of_isDigit '\r' (by decide) h
  have h5 := ne_of_isDigit '\x0b' (by decide) h
  have h6 := ne_of_isDigit '\x0c' (by decide) h
  simp [pyWs, h1, h2, h3, h4, h5, h6]

lemma dropWhile_eq_self_of_all {p : Char → Bool} :
    ∀ l : Str, (∀ c ∈ l, p c = false) → l.dropWhile p = l := by
  intro l h
  cases l with
  | nil => rfl
  | cons c rest => simp [List.dropWhile_cons, h c (by simp)]

lemma pyStripWs_eq_self {s : Str} (h : ∀ c ∈ s, pyWs c = false) : pyStripWs s = s := by
  unfold pyStripWs
  rw [dropWhile_eq_self_of_all s h,
      dropWhile_eq_self_of_all s.reverse (fun c hc => h c (List.mem_reverse.mp hc)),
      List.reverse_reverse]

lemma pyIsdigit_mem {s : Str} (h : pyIsdigit s = true) : ∀ c ∈ s, c.isDigit = true := by
  have := (Bool.and_eq_true _ _).mp h
  exact fun c hc => List.all_eq_true.mp this.2 c hc

lemma pyIsdigit_ne_nil {s : Str} (h : pyIsdigit s = true) : s ≠ [] := by
  intro he
  subst he
  exact Bool.noConfusion h

lemma pyInt_of_strip_digits {s d : Str} (hstrip : pyStripWs s = d)
    (h : pyIsdigit d = true) : pyInt s = some ((digitsVal d : Int)) := by
  have hmem := pyIsdigit_mem h
  obtain ⟨c, rest, hs⟩ : ∃ c rest, d = c :: rest := by
    cases d with
    | nil => exact absurd rfl (pyIsdigit_ne_nil h)
    | cons c rest => exact ⟨c, rest, rfl⟩
  have hc : c.isDigit = true := hmem c (by rw [hs]; simp)
  have hplus : c ≠ '+' := ne_of_isDigit '+' (by decide) hc
  have hminus : c ≠ '-' := ne_of_isDigit '-' (by decide) hc
  have hbody : intBodyOk d = true := by
    unfold intBodyOk
    have h1 : (!d.isEmpty) = true := by
      rw [hs]; rfl
    have h2 : d.all (fun c => c.isDigit || c == '_') = true :=
      List.all_eq_true.mpr (fun x hx => by rw [hmem x hx]; rfl)
    have h3 : (!(d.head? == some '_')) = true := by
      rw [hs]
      simp only [List.head?_cons]
      have : c ≠ '_' := ne_of_isDigit '_' (by decide) hc
      simp [this]
    have h4 : (!(d.getLast? == some '_')) = true := by
      cases hl : d.getLast? with
      | none => rfl
      | some x =>
        have hx : x ∈ d := List.mem_of_mem_getLast? hl
        have : x ≠ '_' := ne_of_isDigit '_' (by decide) (hmem x hx)
        simp [this]
    have h5 : noDoubleUnderscore d = true := by
      unfold noDoubleUnderscore
      refine List.all_eq_true.mpr (fun p hp => ?_)
      have hp1 : p.1 ∈ d := (List.of_mem_zip hp).1
      have : p.1 ≠ '_' := ne_of_isDigit '_' (by decide) (hmem p.1 hp1)
      simp [this]
    rw [h1, h2, h3, h4, h5]
    rfl
  have hcore : pyIntCore d = some (digitsVal d) := by
    unfold pyIntCore
    rw [hbody, if_pos rfl, List.filter_eq_self.mpr hmem]
  unfold pyInt
  rw [hstrip, hs]
  simp only [List.head?_cons]
  rw [if_neg (by simp [hplus]), if_neg (by simp [hminus]), ← hs, hcore]
  rfl

lemma pyInt_of_digits {s : Str} (h : pyIsdigit s = true) :
    pyInt s = some ((digitsVal s : Int)) :=
  pyInt_of_strip_digits
    (pyStripWs_eq_self (fun c hc => pyWs_of_isDigit (pyIsdigit_mem h c hc))) h

lemma pySplitFirst_append (sep : Char) (b : Str) :
    ∀ a : Str, sep ∉ a → pySplitFirst sep (a ++ sep :: b) = (a, b) := by
  intro a
  induction a with
  | nil => intro _; simp [pySplitFirst]
  | cons c a' ih =>
    intro h
    have hc : ¬(c = sep) := fun he => h (by rw [he]; simp)
    have ih' := ih (fun hm => h (List.mem_cons_of_mem _ hm))
    simp only [List.cons_append, pySplitFirst, if_neg hc]
    rw [show a'.append (sep :: b) = a' ++ sep :: b from rfl, ih']

lemma contains_append_cons (sep : Char) (a b : Str) :
    (a ++ sep :: b).contains sep = true :=
  List.elem_iff.mpr (by simp)

lemma str_ofNat (n : Nat) : str ((n : Int)) = Nat.toDigits 10 n := by
  unfold str
  rw [if_neg (by exact not_lt.mpr (Int.natCast_nonneg n))]
  rfl

lemma expand_range_parsed {t : Str} {s e : Int}
    (hc : t.contains '-' = true)
    (hs : pyInt (pySplitFirst '-' t).1 = some s)
    (he : pyInt (pySplitFirst '-' t).2 = some e)
    (hle : s ≤ e) :
    expand_range t =
      (List.range (e + 1 - s).toNat).map (fun (k : Nat) => str (s + (k : Int))) := by
  unfold expand_range
  rw [hc, hs, he]
  simp only [if_true, if_pos hle]

lemma contains_eq_false_of_digits {t : Str} (h : pyIsdigit t = true) :
    t.contains '-' = false := by
  cases hct : t.contains '-' with
  | false => rfl
  | true =>
    exact absurd (pyIsdigit_mem h '-' (List.elem_iff.mp hct)) (by decide)

/-- Claim C5 (amended): a token of the form A-B with A and B decimal digit
strings and value A at most value B expands to the decimal strings of
A, A+1, ..., B; more generally, a token containing a dash whose first-dash
parts are both accepted by the Python integer parser (which also allows a sign
and surrounding whitespace) with first value at most second value expands to
that range; a bare all-digits token is kept as is; every other token
contributes the empty list. -/
theorem c5_expand_range (t : Str) :
    (∀ a b, pyIsdigit a = true → pyIsdigit b = true → t = a ++ '-' :: b →
      digitsVal a ≤ digitsVal b →
      expand_range t =
        (List.range (digitsVal b + 1 - digitsVal a)).map
          (fun k => Nat.toDigits 10 (digitsVal a + k)))
    ∧ (∀ s e : Int, t.contains '-' = true →
        pyInt (pySplitFirst '-' t).1 = some s →
        pyInt (pySplitFirst '-' t).2 = some e → s ≤ e →
        expand_range t =
          (List.range (e + 1 - s).toNat).map (fun (k : Nat) => str (s + (k : Int))))
    ∧ (pyIsdigit t = true → expand_range t = [t])
    ∧ (pyIsdigit t = false →
        (∀ s e : Int, pyInt (pySplitFirst '-' t).1 = some s →
          pyInt (pySplitFirst '-' t).2 = some e → ¬ s ≤ e) →
        expand_range t = []) := by
  refine ⟨?_, ?_, ?_, ?_⟩
  · intro a b ha hb ht hab
    have hna : '-' ∉ a := fun hm => absurd (pyIsdigit_mem ha '-' hm) (by decide)
    have hsplit : pySplitFirst '-' t = (a, b) := by
      rw [ht]; exact pySplitFirst_append '-' b a hna
    have hc : t.contains '-' = true := by rw [ht]; exact contains_append_cons '-' a b
    have hs : pyInt (pySplitFirst '-' t).1 = some ((digitsVal a : Int)) := by
      rw [hsplit]; exact pyInt_of_digits ha
    have he : pyInt (pySplitFirst '-' t).2 = some ((digitsVal b : Int)) := by
      rw [hsplit]; exact pyInt_of_digits hb
    rw [expand_range_parsed hc hs he (by exact_mod_cast hab)]
    have hcount : (((digitsVal b) : Int) + 1 - ((digitsVal a) : Int)).toNat =
        digitsVal b + 1 - digitsVal a := by omega
    rw [hcount]
    refine List.map_eq_map_iff.mpr (fun k _ => ?_)
    have hk : ((digitsVal a : Int)) + (k : Int) = ((digitsVal a + k : Nat) : Int) := by
      push_cast
      ring
    rw [hk, str_ofNat]
  · intro s e hc hs he hle
    exact expand_range_parsed hc hs he hle
  · intro h
    unfold expand_range
    rw [contains_eq_false_of_digits h]
    simp only [Bool.false_eq_true, if_false, h, if_true]
  · intro hd hno
    unfold expand_range
    cases hct : t.contains '-' with
    | false => simp [hd]
    | true =>
      simp only [if_true]
      cases hs : pyInt (pySplitFirst '-' t).1 with
      | none => simp [hd]
      | some s =>
        cases he : pyInt (pySplitFirst '-' t).2 with
        | none => simp [hd]
        | some e =>
          show (if s ≤ e then
              (List.range (e + 1 - s).toNat).map (fun (k : Nat) => str (s + (k : Int)))
            else if pyIsdigit t = true then [t] else []) = []
          rw [if_neg (hno s e hs he), if_neg (by simp [hd])]

/-- Claim C5 counterexample: the token 0--0 is neither all digits nor of the
digits-dash-digits form, yet _expand_range returns a nonempty expansion for it
(Python int accepts the signed part -0), contradicting the claim that any such
token contributes the empty set. -/
theorem c5_counterexample :
    expand_range "0--0".data = ["0".data]
    ∧ pyIsdigit "0--0".data = false
    ∧ ¬ ∃ a b, pyIsdigit a = true ∧ pyIsdigit b = true ∧
        "0--0".data = a ++ '-' :: b := by
  refine ⟨by decide, by decide, ?_⟩
  rintro ⟨a, b, ha, hb, heq⟩
  have hna : '-' ∉ a := fun hm => absurd (pyIsdigit_mem ha '-' hm) (by decide)
  have hsplit : pySplitFirst '-' "0--0".data = (a, b) := by
    rw [heq]; exact pySplitFirst_append '-' b a hna
  have hval : pySplitFirst '-' "0--0".data = ("0".data, "-0".data) := by decide
  have hb' : b = "-0".data := congrArg Prod.snd (hsplit.symm.trans hval)
  rw [hb'] at hb
  exact absurd hb (by decide)

/-- Witness for c5_expand_range at concrete inputs. -/
theorem c5_expand_range_witness :
    expand_range "3-5".data = ["3".data, "4".data, "5".data]
    ∧ expand_range "7".data = ["7".data]
    ∧ expand_range "5-3".data = [] := by
  refine ⟨?_, ?_, ?_⟩
  · have h := (c5_expand_range "3-5".data).1 "3".data "5".data (by decide) (by decide)
      (by decide) (by decide)
    rw [h]; decide
  · exact (c5_expand_range "7".data).2.2.1 (by decide)
  · refine (c5_expand_range "5-3".data).2.2.2 (by decide) ?_
    intro s e hs he
    have h5 : pyInt (pySplitFirst '-' "5-3".data).1 = some 5 := by decide
    have h3 : pyInt (pySplitFirst '-' "5-3".data).2 = some 3 := by decide
    have hs5 : s = 5 := Option.some.inj (hs.symm.trans h5)
    have he3 : e = 3 := Option.some.inj (he.symm.trans h3)
    rw [hs5, he3]
    decide

lemma pySplitChar_ne_nil (sep : Char) : ∀ s : Str, pySplitChar sep s ≠ [] := by
  intro s
  cases s with
  | nil => simp [pySplitChar]
  | cons c rest =>
    unfold pySplitChar
    by_cases hc : c = sep
    · simp [hc]
    · rw [if_neg hc]
      cases h : pySplitChar sep rest with
      | nil => simp
      | cons r rs => simp

lemma joinSep_pySplitChar (sep : Char) : ∀ s : Str, joinSep sep (pySplitChar sep s) = s := by
  intro s
  induction s with
  | nil => rfl
  | cons c rest ih =>
    unfold pySplitChar
    by_cases hc : c = sep
    · rw [if_pos hc]
      cases h : pySplitChar sep rest with
      | nil => exact absurd h (pySplitChar_ne_nil sep rest)
      | cons r rs =>
        rw [h] at ih
        simp only [joinSep, hc]
        rw [ih]
        rfl
    · rw [if_neg hc]
      cases h : pySplitChar sep rest with
      | nil => exact absurd h (pySplitChar_ne_nil sep rest)
      | cons r rs =>
        rw [h] at ih
        cases rs with
        | nil => simp only [joinSep] at ih ⊢; rw [ih]
        | cons r2 rs2 => simp only [joinSep] at ih ⊢; rw [List.cons_append, ih]

lemma pySplitChar_no_sep (sep : Char) : ∀ a : Str, sep ∉ a → pySplitChar sep a = [a] := by
  intro a
  induction a with
  | nil => intro _; rfl
  | cons c a' ih =>
    intro h
    have hc : ¬(c = sep) := fun he => h (by rw [he]; simp)
    unfold pySplitChar
    rw [if_neg hc, ih (fun hm => h (List.mem_cons_of_mem _ hm))]

lemma pySplitChar_append_cons (sep : Char) (b : Str) :
    ∀ a : Str, sep ∉ a → pySplitChar sep (a ++ sep :: b) = a :: pySplitChar sep b := by
  intro a
  induction a with
  | nil => intro _; simp [pySplitChar]
  | cons c a' ih =>
    intro h
    have hc : ¬(c = sep) := fun he => h (by rw [he]; simp)
    have ih' := ih (fun hm => h (List.mem_cons_of_mem _ hm))
    have hstep : pySplitChar sep (c :: (a' ++ sep :: b)) =
        match pySplitChar sep (a' ++ sep :: b) with
        | [] => [[c]]
        | r :: rs => (c :: r) :: rs := by
      rw [pySplitChar.eq_2, if_neg hc]
    simp only [List.cons_append]
    rw [hstep, ih']

lemma dot_not_mem_of_groupDigits {g : Str} (h : groupDigits g = true) : '.' ∉ g := by
  intro hm
  have hall := (Bool.and_eq_true _ _).mp h
  have := List.all_eq_true.mp hall.2 '.' hm
  exact absurd this (by decide)

/-- The prefix normalization the claim describes: strip at most one trailing
separator.  Written from the words of the claim, to be compared with the
source model validate_ip_pfx, which strips every trailing separator. -/
def stripOneTrailingDot (s : Str) : Str :=
  if s.getLast? = some '.' then s.dropLast else s

/-- The acceptance test the claim describes: strip one optional trailing
separator, then require exactly three dot-separated groups of one to three
digits, each numerically at most 255.  Written from the words of the claim. -/
def claimedValidateIpPre (s : Str) : Bool :=
  let q := stripOneTrailingDot s
  if formatThreeGroups q then (pySplitChar '.' q).all (fun g => digitsVal g ≤ 255)
  else false

/-- Claim C7 counterexample: on 192.168.1.. the source strips both trailing
dots and accepts, while the claimed one-separator strip leaves 192.168.1. and
must reject. -/
theorem c7_counterexample :
    validate_ip_pfx "192.168.1..".data = true
    ∧ claimedValidateIpPre "192.168.1..".data = false := by
  exact ⟨by decide, by decide⟩

lemma formatThreeGroups_eq_true {q : Str} (h : formatThreeGroups q = true) :
    ∃ g1 g2 g3, pySplitChar '.' q = [g1, g2, g3] ∧
      groupDigits g1 = true ∧ groupDigits g2 = true ∧ groupDigits g3 = true := by
  unfold formatThreeGroups at h
  rcases hq : pySplitChar '.' q with _ | ⟨g1, gs⟩
  · rw [hq] at h; exact absurd h (by simp)
  rcases gs with _ | ⟨g2, gs2⟩
  · rw [hq] at h; exact absurd h (by simp)
  rcases gs2 with _ | ⟨g3, gs3⟩
  · rw [hq] at h; exact absurd h (by simp)
  rcases gs3 with _ | ⟨g4, gs4⟩
  · rw [hq] at h
    have h2 : (groupDigits g1 && groupDigits g2 && groupDigits g3) = true := h
    rw [Bool.and_eq_true, Bool.and_eq_true] at h2
    exact ⟨g1, g2, g3, rfl, h2.1.1, h2.1.2, h2.2⟩
  · rw [hq] at h; exact absurd h (by simp)

lemma pyIsdigit_of_groupDigits {g : Str} (h : groupDigits g = true) :
    pyIsdigit g = true := by
  unfold groupDigits at h
  rw [Bool.and_eq_true, Bool.and_eq_true] at h
  unfold pyIsdigit
  rw [h.1.1, h.2]
  rfl

lemma pyStripWs_digits_nl {d : Str} (h : pyIsdigit d = true) :
    pyStripWs (d ++ ['\n']) = d := by
  obtain ⟨c, rest, hs⟩ : ∃ c rest, d = c :: rest := by
    cases d with
    | nil => exact absurd rfl (pyIsdigit_ne_nil h)
    | cons c rest => exact ⟨c, rest, rfl⟩
  have hc : pyWs c = false := pyWs_of_isDigit (pyIsdigit_mem h c (by rw [hs]; simp))
  unfold pyStripWs
  have h1 : (d ++ ['\n']).dropWhile pyWs = d ++ ['\n'] := by
    rw [hs]
    simp [List.cons_append, List.dropWhile_cons, hc]
  have h2 : d.reverse.dropWhile pyWs = d.reverse :=
    dropWhile_eq_self_of_all d.reverse
      (fun x hx => pyWs_of_isDigit (pyIsdigit_mem h x (List.mem_reverse.mp hx)))
  rw [h1, List.reverse_append]
  have h3 : (('\n' :: d.reverse).dropWhile pyWs) = d.reverse.dropWhile pyWs := by
    rw [List.dropWhile_cons, show pyWs '\n' = true from by decide]
    simp
  show (('\n' :: d.reverse).dropWhile pyWs).reverse = d
  rw [h3, h2, List.reverse_reverse]

lemma pyInt_digits_nl {d : Str} (h : pyIsdigit d = true) :
    pyInt (d ++ ['\n']) = some ((digitsVal d : Int)) :=
  pyInt_of_strip_digits (pyStripWs_digits_nl h) h

lemma octetOk_digits {g : Str} (h : pyIsdigit g = true) :
    octetOk g = true ↔ digitsVal g ≤ 255 := by
  unfold octetOk
  rw [pyInt_of_digits h]
  show ((decide (0 ≤ ((digitsVal g : Int)))) &&
    decide (((digitsVal g : Int)) ≤ 255)) = true ↔ digitsVal g ≤ 255
  simp only [Bool.and_eq_true, decide_eq_true_eq]
  omega

lemma octetOk_digits_nl {g : Str} (h : pyIsdigit g = true) :
    octetOk (g ++ ['\n']) = true ↔ digitsVal g ≤ 255 := by
  unfold octetOk
  rw [pyInt_digits_nl h]
  show ((decide (0 ≤ ((digitsVal g : Int)))) &&
    decide (((digitsVal g : Int)) ≤ 255)) = true ↔ digitsVal g ≤ 255
  simp only [Bool.and_eq_true, decide_eq_true_eq]
  omega

lemma dot_not_mem_concat_nl {g : Str} (h : groupDigits g = true) :
    '.' ∉ g ++ ['\n'] := by
  intro hm
  rcases List.mem_append.mp hm with hm | hm
  · exact dot_not_mem_of_groupDigits h hm
  · exact absurd (List.mem_singleton.mp hm) (by decide)

/-- Claim C7 (amended): _validate_ip_prefix strips every trailing separator
(not just one) and then accepts exactly the strings whose stripped form is
three dot-separated groups of one to three digits, each at most 255,
optionally followed by one final newline (the regex end anchor also matches
just before a trailing newline, and int() strips it from the last octet); in
particular 192.168.1 and 192.168.1. are valid while 256.1.1 and 192.168 are
invalid. -/
theorem c7_validate :
    (∀ p : Str, validate_ip_pfx p = true ↔
      ∃ g1 g2 g3 : Str,
        (pyRstrip '.' p = g1 ++ '.' :: (g2 ++ '.' :: g3) ∨
         pyRstrip '.' p = g1 ++ '.' :: (g2 ++ '.' :: (g3 ++ ['\n']))) ∧
        groupDigits g1 = true ∧ digitsVal g1 ≤ 255 ∧
        groupDigits g2 = true ∧ digitsVal g2 ≤ 255 ∧
        groupDigits g3 = true ∧ digitsVal g3 ≤ 255)
    ∧ validate_ip_pfx "192.168.1".data = true
    ∧ validate_ip_pfx "192.168.1.".data = true
    ∧ validate_ip_pfx "192.168.1\n".data = true
    ∧ validate_ip_pfx "256.1.1".data = false
    ∧ validate_ip_pfx "192.168".data = false := by
  refine ⟨fun p => ⟨fun h => ?_, fun h => ?_⟩,
    by decide, by decide, by decide, by decide, by decide⟩
  · simp only [validate_ip_pfx] at h
    by_cases hcond : (formatThreeGroups (pyRstrip '.' p) ||
        ((pyRstrip '.' p).getLast? == some '\n' &&
          formatThreeGroups (pyRstrip '.' p).dropLast)) = true
    · rw [if_pos hcond] at h
      rcases Bool.or_eq_true_iff.mp hcond with hfmt | hrest
      · obtain ⟨g1, g2, g3, hq, h1, h2, h3⟩ := formatThreeGroups_eq_true hfmt
        refine ⟨g1, g2, g3, Or.inl ?_, h1, ?_, h2, ?_, h3, ?_⟩
        · have hj := joinSep_pySplitChar '.' (pyRstrip '.' p)
          rw [hq] at hj
          simp only [joinSep] at hj
          exact hj.symm
        · exact (octetOk_digits (pyIsdigit_of_groupDigits h1)).mp
            (List.all_eq_true.mp h g1 (by rw [hq]; simp))
        · exact (octetOk_digits (pyIsdigit_of_groupDigits h2)).mp
            (List.all_eq_true.mp h g2 (by rw [hq]; simp))
        · exact (octetOk_digits (pyIsdigit_of_groupDigits h3)).mp
            (List.all_eq_true.mp h g3 (by rw [hq]; simp))
      · rw [Bool.and_eq_true] at hrest
        have hlast : (pyRstrip '.' p).getLast? = some '\n' := by
          have := hrest.1
          simpa using this
        obtain ⟨q2, hq2⟩ := List.getLast?_eq_some_iff.mp hlast
        have hfmt2 : formatThreeGroups q2 = true := by
          have := hrest.2
          rw [hq2, List.dropLast_concat] at this
          exact this
        obtain ⟨g1, g2, g3, hq, h1, h2, h3⟩ := formatThreeGroups_eq_true hfmt2
        have hq2dec : q2 = g1 ++ '.' :: (g2 ++ '.' :: g3) := by
          have hj := joinSep_pySplitChar '.' q2
          rw [hq] at hj
          simp only [joinSep] at hj
          exact hj.symm
        have hdec : pyRstrip '.' p = g1 ++ '.' :: (g2 ++ '.' :: (g3 ++ ['\n'])) := by
          rw [hq2, hq2dec]
          simp [List.append_assoc]
        have hsplit : pySplitChar '.' (pyRstrip '.' p) = [g1, g2, g3 ++ ['\n']] := by
          rw [hdec, pySplitChar_append_cons '.' _ g1 (dot_not_mem_of_groupDigits h1),
            pySplitChar_append_cons '.' _ g2 (dot_not_mem_of_groupDigits h2),
            pySplitChar_no_sep '.' _ (dot_not_mem_concat_nl h3)]
        refine ⟨g1, g2, g3, Or.inr hdec, h1, ?_, h2, ?_, h3, ?_⟩
        · exact (octetOk_digits (pyIsdigit_of_groupDigits h1)).mp
            (List.all_eq_true.mp h g1 (by rw [hsplit]; simp))
        · exact (octetOk_digits (pyIsdigit_of_groupDigits h2)).mp
            (List.all_eq_true.mp h g2 (by rw [hsplit]; simp))
        · exact (octetOk_digits_nl (pyIsdigit_of_groupDigits h3)).mp
            (List.all_eq_true.mp h (g3 ++ ['\n']) (by rw [hsplit]; simp))
    · rw [if_neg hcond] at h
      exact absurd h (by simp)
  · obtain ⟨g1, g2, g3, hdec, h1, v1, h2, v2, h3, v3⟩ := h
    rcases hdec with hdec | hdec
    · have hq : pySplitChar '.' (pyRstrip '.' p) = [g1, g2, g3] := by
        rw [hdec, pySplitChar_append_cons '.' _ g1 (dot_not_mem_of_groupDigits h1),
          pySplitChar_append_cons '.' _ g2 (dot_not_mem_of_groupDigits h2),
          pySplitChar_no_sep '.' g3 (dot_not_mem_of_groupDigits h3)]
      have hfmt : formatThreeGroups (pyRstrip '.' p) = true := by
        unfold formatThreeGroups
        rw [hq]
        show (groupDigits g1 && groupDigits g2 && groupDigits g3) = true
        rw [h1, h2, h3]
        rfl
      simp only [validate_ip_pfx]
      rw [if_pos (by rw [hfmt]; rfl), hq]
      refine List.all_eq_true.mpr (fun g hg => ?_)
      simp only [List.mem_cons, List.not_mem_nil, or_false] at hg
      rcases hg with rfl | rfl | rfl
      · exact (octetOk_digits (pyIsdigit_of_groupDigits h1)).mpr v1
      · exact (octetOk_digits (pyIsdigit_of_groupDigits h2)).mpr v2
      · exact (octetOk_digits (pyIsdigit_of_groupDigits h3)).mpr v3
    · have hcat : pyRstrip '.' p = (g1 ++ '.' :: (g2 ++ '.' :: g3)) ++ ['\n'] := by
        rw [hdec]
        simp [List.append_assoc]
      have hlast : (pyRstrip '.' p).getLast? = some '\n' := by
        rw [hcat]
        exact List.getLast?_concat _
      have hdrop : (pyRstrip '.' p).dropLast = g1 ++ '.' :: (g2 ++ '.' :: g3) := by
        rw [hcat]
        exact List.dropLast_concat
      have hq2 : pySplitChar '.' (g1 ++ '.' :: (g2 ++ '.' :: g3)) = [g1, g2, g3] := by
        rw [pySplitChar_append_cons '.' _ g1 (dot_not_mem_of_groupDigits h1),
          pySplitChar_append_cons '.' _ g2 (dot_not_mem_of_groupDigits h2),
          pySplitChar_no_sep '.' g3 (dot_not_mem_of_groupDigits h3)]
      have hfmt2 : formatThreeGroups (pyRstrip '.' p).dropLast = true := by
        rw [hdrop]
        unfold formatThreeGroups
        rw [hq2]
        show (groupDigits g1 && groupDigits g2 && groupDigits g3) = true
        rw [h1, h2, h3]
        rfl
      have hcond : (formatThreeGroups (pyRstrip '.' p) ||
          ((pyRstrip '.' p).getLast? == some '\n' &&
            formatThreeGroups (pyRstrip '.' p).dropLast)) = true := by
        rw [hlast, hfmt2]
        simp
      have hsplit : pySplitChar '.' (pyRstrip '.' p) = [g1, g2, g3 ++ ['\n']] := by
        rw [hdec, pySplitChar_append_cons '.' _ g1 (dot_not_mem_of_groupDigits h1),
          pySplitChar_append_cons '.' _ g2 (dot_not_mem_of_groupDigits h2),
          pySplitChar_no_sep '.' _ (dot_not_mem_concat_nl h3)]
      simp only [validate_ip_pfx]
      rw [if_pos hcond, hsplit]
      refine List.all_eq_true.mpr (fun g hg => ?_)
      simp only [List.mem_cons, List.not_mem_nil, or_false] at hg
      rcases hg with rfl | rfl | rfl
      · exact (octetOk_digits (pyIsdigit_of_groupDigits h1)).mpr v1
      · exact (octetOk_digits (pyIsdigit_of_groupDigits h2)).mpr v2
      · exact (octetOk_digits_nl (pyIsdigit_of_groupDigits h3)).mpr v3

/-- Witness for c7_validate: the backward direction of the characterization at
a concrete decomposition. -/
theorem c7_validate_witness : validate_ip_pfx "10.0.0".data = true := by
  refine (c7_validate.1 "10.0.0".data).mpr
    ⟨"10".data, "0".data, "0".data, Or.inl (by decide), by decide, by decide,
      by decide, by decide, by decide, by decide⟩

/-- First occurrences of the elements of a list, in input order, skipping
elements already in seen. -/
def firstOccurAux (seen : List Str) : List Str → List Str
  | [] => []
  | x :: xs =>
    if seen.contains x then firstOccurAux seen xs
    else x :: firstOccurAux (x :: seen) xs

/-- First occurrences of the elements of a list, in input order. -/
def firstOccur (l : List Str) : List Str :=
  firstOccurAux [] l

lemma mem_firstOccurAux : ∀ (l seen : List Str) (x : Str),
    x ∈ firstOccurAux seen l ↔ (x ∈ l ∧ x ∉ seen) := by
  intro l
  induction l with
  | nil => intro seen x; simp [firstOccurAux]
  | cons y ys ih =>
    intro seen x
    by_cases hc : seen.contains y = true
    · have hy : y ∈ seen := List.elem_iff.mp hc
      simp only [firstOccurAux, hc, if_true]
      rw [ih, List.mem_cons]
      by_cases hxy : x = y
      · subst hxy; simp [hy]
      · simp [hxy]
    · have hy : y ∉ seen := fun hm => hc (List.elem_iff.mpr hm)
      have hc2 : seen.contains y = false := Bool.eq_false_iff.mpr hc
      rw [show firstOccurAux seen (y :: ys) = y :: firstOccurAux (y :: seen) ys by
        simp only [firstOccurAux, hc2, Bool.false_eq_true, if_false]]
      rw [List.mem_cons, ih, List.mem_cons, List.mem_cons]
      by_cases hxy : x = y
      · subst hxy; simp [hy]
      · simp [hxy]

lemma parse_loop_fst (pre : Str) (allowed : List Str) : ∀ (sfxs seen : List Str),
    (parse_ips_loop pre allowed sfxs seen).1 =
      (firstOccurAux seen (sfxs.filter (fun s => validate_ip_suffix allowed s))).map
        (fun s => pre ++ '.' :: s) := by
  intro sfxs
  induction sfxs with
  | nil => intro seen; rfl
  | cons x xs ih =>
    intro seen
    by_cases hv : validate_ip_suffix allowed x = true
    · rw [List.filter_cons_of_pos hv]
      by_cases hc : seen.contains x = true
      · simp only [parse_ips_loop, hv, Bool.not_true, Bool.false_eq_true, if_false, hc,
          if_true, firstOccurAux]
        exact ih seen
      · simp only [parse_ips_loop, hv, Bool.not_true, Bool.false_eq_true, if_false, hc,
          firstOccurAux, List.map_cons]
        rw [ih (x :: seen)]
    · rw [List.filter_cons_of_neg (by simp [hv])]
      have hv' : (!validate_ip_suffix allowed x) = true := by
        simp [Bool.eq_false_iff.mpr hv]
      simp only [parse_ips_loop, hv', if_true]
      exact ih seen

lemma parse_loop_err (pre : Str) (allowed : List Str) : ∀ (sfxs seen : List Str),
    (parse_ips_loop pre allowed sfxs seen).2.1 =
      (sfxs.filter (fun s => !validate_ip_suffix allowed s)).map errMsg := by
  intro sfxs
  induction sfxs with
  | nil => intro seen; rfl
  | cons x xs ih =>
    intro seen
    by_cases hv : validate_ip_suffix allowed x = true
    · rw [List.filter_cons_of_neg (by simp [hv])]
      by_cases hc : seen.contains x = true
      · simp only [parse_ips_loop, hv, Bool.not_true, Bool.false_eq_true, if_false, hc,
          if_true]
        exact ih seen
      · simp only [parse_ips_loop, hv, Bool.not_true, Bool.false_eq_true, if_false, hc]
        exact ih (x :: seen)
    · have hv' : (!validate_ip_suffix allowed x) = true := by
        simp [Bool.eq_false_iff.mpr hv]
      have hfc : (x :: xs).filter (fun s => !validate_ip_suffix allowed s) =
          x :: xs.filter (fun s => !validate_ip_suffix allowed s) :=
        List.filter_cons_of_pos hv'
      rw [hfc]
      simp only [parse_ips_loop, hv', if_true, List.map_cons]
      rw [ih seen]

lemma parse_loop_warn_len (pre : Str) (allowed : List Str) : ∀ (sfxs seen : List Str),
    (parse_ips_loop pre allowed sfxs seen).2.2.length +
      (firstOccurAux seen (sfxs.filter (validate_ip_suffix allowed))).length =
    (sfxs.filter (validate_ip_suffix allowed)).length := by
  intro sfxs
  induction sfxs with
  | nil => intro seen; rfl
  | cons x xs ih =>
    intro seen
    by_cases hv : validate_ip_suffix allowed x = true
    · rw [List.filter_cons_of_pos hv]
      by_cases hc : seen.contains x = true
      · simp only [parse_ips_loop, hv, Bool.not_true, Bool.false_eq_true, if_false, hc,
          if_true, firstOccurAux, List.length_cons]
        have := ih seen
        omega
      · simp only [parse_ips_loop, hv, Bool.not_true, Bool.false_eq_true, if_false, hc,
          firstOccurAux, List.length_cons]
        have := ih (x :: seen)
        omega
    · rw [List.filter_cons_of_neg (by simp [hv])]
      have hv' : (!validate_ip_suffix allowed x) = true := by
        simp [Bool.eq_false_iff.mpr hv]
      simp only [parse_ips_loop, hv', if_true]
      exact ih seen

/-- Claim C6: _parse_ips includes a suffix exactly when it is all digits and
in the allow-list; every failing occurrence contributes exactly one error
string, collected rather than raised; a valid suffix seen again is skipped
with one warning per repeat rather than an error; and the host list follows
the input order of first occurrences of the valid suffixes. -/
theorem c6_parse_ips (pre : Str) (allowed : List Str) (sfxs : List Str) :
    (parse_ips pre allowed sfxs).1 =
      (firstOccur (sfxs.filter (fun s => validate_ip_suffix allowed s))).map
        (fun s => pre ++ '.' :: s)
    ∧ (parse_ips pre allowed sfxs).2.1 =
      (sfxs.filter (fun s => !validate_ip_suffix allowed s)).map errMsg
    ∧ (parse_ips pre allowed sfxs).2.2.length + (parse_ips pre allowed sfxs).1.length =
      (sfxs.filter (validate_ip_suffix allowed)).length
    ∧ ∀ sfx : Str, (pre ++ '.' :: sfx) ∈ (parse_ips pre allowed sfxs).1 ↔
        (sfx ∈ sfxs ∧ pyIsdigit sfx = true ∧ allowed.contains sfx = true) := by
  have hfst := parse_loop_fst pre allowed sfxs []
  have herr := parse_loop_err pre allowed sfxs []
  have hwarn := parse_loop_warn_len pre allowed sfxs []
  have hp : parse_ips pre allowed sfxs = parse_ips_loop pre allowed sfxs [] := rfl
  refine ⟨by rw [hp, hfst]; rfl, by rw [hp, herr], ?_, ?_⟩
  · rw [hp, hfst, List.length_map]
    exact hwarn
  · intro sfx
    rw [hp, hfst]
    constructor
    · intro hm
      obtain ⟨s, hsmem, heq⟩ := List.mem_map.mp hm
      have hcons : '.' :: s = '.' :: sfx := List.append_cancel_left heq
      have hss : s = sfx := by injection hcons
      subst hss
      have h1 := (mem_firstOccurAux _ [] s).mp hsmem
      have h2 := List.mem_filter.mp h1.1
      have h3 := (Bool.and_eq_true _ _).mp h2.2
      exact ⟨h2.1, h3.1, h3.2⟩
    · rintro ⟨hmem, hdig, hcont⟩
      refine List.mem_map.mpr ⟨sfx, ?_, rfl⟩
      refine (mem_firstOccurAux _ [] sfx).mpr ⟨?_, by simp⟩
      refine List.mem_filter.mpr ⟨hmem, ?_⟩
      show validate_ip_suffix allowed sfx = true
      unfold validate_ip_suffix
      rw [hdig, hcont]
      rfl

/-- Witness for c6_parse_ips: membership of the first host of the worked
example from the specification. -/
theorem c6_parse_ips_witness :
    ("10.200.142".data ++ '.' :: "1".data) ∈
      (parse_ips "10.200.142".data ["1".data, "2".data]
        ["1".data, "1".data, "2".data]).1 := by
  exact ((c6_parse_ips "10.200.142".data ["1".data, "2".data]
    ["1".data, "1".data, "2".data]).2.2.2 "1".data).mpr ⟨by decide, by decide, by decide⟩

lemma startsWith_append_self : ∀ p l : Str, startsWith p (p ++ l) = true := by
  intro p
  induction p with
  | nil => intro l; rfl
  | cons c ps ih =>
    intro l
    show (c == c && startsWith ps (ps ++ l)) = true
    rw [beq_self_eq_true, ih l]
    rfl

lemma exists_append_of_startsWith : ∀ p l : Str, startsWith p l = true → ∃ t, l = p ++ t := by
  intro p
  induction p with
  | nil => intro l _; exact ⟨l, rfl⟩
  | cons c ps ih =>
    intro l h
    cases l with
    | nil => exact absurd h (by simp [startsWith])
    | cons d ds =>
      have h2 := (Bool.and_eq_true _ _).mp h
      have hcd : c = d := by simpa using h2.1
      obtain ⟨t, ht⟩ := ih ds h2.2
      exact ⟨t, by rw [hcd, ht]; rfl⟩

lemma replaceFuel_no_occur (pat rep : Str) :
    ∀ (fuel : Nat) (l : Str), (∀ a b : Str, l ≠ a ++ pat ++ b) → l.length ≤ fuel →
      replaceFuel pat rep fuel l = l := by
  intro fuel
  induction fuel with
  | zero =>
    intro l _ hlen
    have : l = [] := List.eq_nil_of_length_eq_zero (Nat.le_zero.mp hlen)
    rw [this]
    rfl
  | succ f ih =>
    intro l h hlen
    cases l with
    | nil => rfl
    | cons c rest =>
      have hsw : startsWith pat (c :: rest) = false := by
        cases hs : startsWith pat (c :: rest) with
        | false => rfl
        | true =>
          obtain ⟨t, ht⟩ := exists_append_of_startsWith pat (c :: rest) hs
          exact absurd (by rw [ht]; rfl) (h [] t)
      simp only [replaceFuel, hsw, Bool.false_eq_true, if_false]
      rw [ih rest (fun a b hab => h (c :: a) b (by rw [hab]; rfl))
        (by simpa using Nat.le_of_succ_le_succ hlen)]

lemma replaceFuel_irrel (pat rep : Str) :
    ∀ (f1 f2 : Nat) (l : Str), l.length ≤ f1 → l.length ≤ f2 →
      replaceFuel pat rep f1 l = replaceFuel pat rep f2 l := by
  intro f1
  induction f1 with
  | zero =>
    intro f2 l hlen _
    have : l = [] := List.eq_nil_of_length_eq_zero (Nat.le_zero.mp hlen)
    subst this
    cases f2 <;> rfl
  | succ f ih =>
    intro f2 l h1 h2
    cases l with
    | nil => cases f2 <;> rfl
    | cons c rest =>
      cases f2 with
      | zero => exact absurd h2 (by simp)
      | succ f2' =>
        simp only [replaceFuel]
        by_cases hsw : startsWith pat (c :: rest) = true
        · rw [hsw]
          simp only [if_true]
          rw [ih f2' (rest.drop (pat.length - 1))
            (le_trans (by simpa using List.length_drop_le _ _) (Nat.le_of_succ_le_succ h1))
            (le_trans (by simpa using List.length_drop_le _ _) (Nat.le_of_succ_le_succ h2))]
        · rw [Bool.eq_false_iff.mpr hsw]
          simp only [Bool.false_eq_true, if_false]
          rw [ih f2' rest (by simpa using Nat.le_of_succ_le_succ h1)
            (by simpa using Nat.le_of_succ_le_succ h2)]

lemma pyReplaceList_no_occur {pat : Str} (rep : Str) {s : Str}
    (h : ∀ a b : Str, s ≠ a ++ pat ++ b) : pyReplaceList pat rep s = s :=
  replaceFuel_no_occur pat rep s.length s h (Nat.le_refl _)

lemma pyReplaceList_head_match {pat : Str} (rep l : Str) (hp : pat ≠ []) :
    pyReplaceList pat rep (pat ++ l) = rep ++ pyReplaceList pat rep l := by
  obtain ⟨p0, ps, hps⟩ : ∃ p0 ps, pat = p0 :: ps := by
    cases pat with
    | nil => exact absurd rfl hp
    | cons p0 ps => exact ⟨p0, ps, rfl⟩
  unfold pyReplaceList
  have hlen : (pat ++ l).length = (ps.length + l.length) + 1 := by
    rw [hps]; simp [List.length_append]
  rw [hlen]
  have hshape : pat ++ l = p0 :: (ps ++ l) := by rw [hps]; rfl
  rw [hshape]
  have hsw : startsWith pat (p0 :: (ps ++ l)) = true := by
    rw [← hshape]; exact startsWith_append_self pat l
  simp only [replaceFuel, hsw, if_true]
  have hdrop : (ps ++ l).drop (pat.length - 1) = l := by
    rw [hps]
    simp only [List.length_cons, Nat.add_sub_cancel]
    exact List.drop_left ps l
  rw [hdrop, replaceFuel_irrel pat rep (ps.length + l.length) l.length l
    (by omega) (Nat.le_refl _)]

lemma pyReplaceList_cons_no_match {pat : Str} (rep : Str) {c : Char} {l : Str}
    (hsw : startsWith pat (c :: l) = false) :
    pyReplaceList pat rep (c :: l) = c :: pyReplaceList pat rep l := by
  unfold pyReplaceList
  simp only [List.length_cons, replaceFuel, hsw, Bool.false_eq_true, if_false]

lemma pyReplaceList_self {pat : Str} (rep : Str) (hp : pat ≠ []) :
    pyReplaceList pat rep pat = rep := by
  have h := pyReplaceList_head_match rep [] hp
  rw [List.append_nil] at h
  rw [h]
  show rep ++ replaceFuel pat rep 0 [] = rep
  rw [show replaceFuel pat rep 0 [] = [] from rfl, List.append_nil]

lemma no_occur_of_short {pat s : Str} (h : s.length < pat.length) :
    ∀ a b : Str, s ≠ a ++ pat ++ b := by
  intro a b he
  rw [he] at h
  simp only [List.length_append] at h
  omega

/-- Claim C10: _substitute_variables replaces every occurrence of the literal
placeholder, not only the first, including occurrences that are a prefix of a
longer name such as the placeholder followed by BER, and returns any string
with no occurrence of the placeholder unchanged. -/
theorem c10_substitute (t n : Str) :
    ((∀ a b : Str, t ≠ a ++ "$CLIENT_NUM".data ++ b) → substitute_variables t n = t)
    ∧ substitute_variables "$CLIENT_NUMBER".data n = n ++ "BER".data
    ∧ substitute_variables "$CLIENT_NUM $CLIENT_NUM".data n = n ++ ' ' :: n := by
  refine ⟨?_, ?_, ?_⟩
  · intro h
    exact pyReplaceList_no_occur n h
  · unfold substitute_variables
    rw [show "$CLIENT_NUMBER".data = "$CLIENT_NUM".data ++ "BER".data from by decide]
    rw [pyReplaceList_head_match n "BER".data (by decide)]
    rw [pyReplaceList_no_occur n (no_occur_of_short (by decide))]
  · unfold substitute_variables
    rw [show "$CLIENT_NUM $CLIENT_NUM".data =
      "$CLIENT_NUM".data ++ ' ' :: "$CLIENT_NUM".data from by decide]
    rw [pyReplaceList_head_match n (' ' :: "$CLIENT_NUM".data) (by decide)]
    rw [pyReplaceList_cons_no_match n (by decide)]
    rw [pyReplaceList_self n (by decide)]

/-- Witness for c10_substitute: a string without the placeholder is returned
unchanged. -/
theorem c10_substitute_witness :
    substitute_variables "echo test".data "5".data = "echo test".data :=
  (c10_substitute "echo test".data "5".data).1 (no_occur_of_short (by decide))

/-- Claim C1 counterexample: when the probe invocation fails to launch,
_execute_ssh_command does not return the promised connection-failure result;
the FileNotFoundError is uncaught and propagates (modelled as Except.error),
though the command phase is still never attempted. -/
theorem c1_counterexample :
    (execute_ssh_command false "root".data "10.0.0.1".data "ls".data
      ProcResult.launchFailure (ProcResult.completed 0 [] [])).result = Except.error ()
    ∧ (execute_ssh_command false "root".data "10.0.0.1".data "ls".data
      ProcResult.launchFailure (ProcResult.completed 0 [] [])).calls = 1 :=
  ⟨rfl, rfl⟩

/-- Claim C1 (amended): when the probe invocation exits nonzero or times out,
Execute returns success false with the message that an SSH connection to
user at host could not be established, and the command phase is never
attempted (exactly one invocation); a probe launch failure also stops before
the command phase but propagates as an exception instead of returning. -/
theorem c1_probe_failure (user ip command : Str) (probe cmdRun : ProcResult)
    (h : probe = ProcResult.timeout ∨
      ∃ rc out err, probe = ProcResult.completed rc out err ∧ rc ≠ 0) :
    execute_ssh_command false user ip command probe cmdRun =
      ⟨Except.ok (false, make_label ip ++
        " Error: Could not establish SSH connection to ".data ++ user ++ "@".data ++ ip),
       1⟩ := by
  rcases h with h | ⟨rc, out, err, h, hrc⟩
  · subst h; rfl
  · subst h
    simp [execute_ssh_command, hrc]

/-- Witness for c1_probe_failure at a concrete timed-out probe. -/
theorem c1_probe_failure_witness :
    execute_ssh_command false "root".data "10.0.0.5".data "uptime".data
      ProcResult.timeout (ProcResult.completed 0 [] []) =
      ⟨Except.ok (false, make_label "10.0.0.5".data ++
        " Error: Could not establish SSH connection to ".data ++ "root".data ++
        "@".data ++ "10.0.0.5".data), 1⟩ :=
  c1_probe_failure "root".data "10.0.0.5".data "uptime".data
    ProcResult.timeout (ProcResult.completed 0 [] []) (Or.inl rfl)

/-- Claim C2 counterexample: with captured standard output consisting of the
line a followed by a space, the source strips the whole output first and emits
the label with a, while the claimed pipeline (split, drop blanks, prefix,
join) would keep the trailing space. -/
theorem c2_counterexample :
    (execute_ssh_command false "root".data "10.0.0.1".data "ls".data
      (ProcResult.completed 0 [] []) (ProcResult.completed 0 "a ".data [])).result =
      Except.ok (true, "[Client 1 | 10.0.0.1] a".data)
    ∧ "[Client 1 | 10.0.0.1] a".data ≠ "[Client 1 | 10.0.0.1] a ".data :=
  ⟨by decide, by decide⟩

/-- Claim C2 (amended): on a succeeding command invocation the result is
success true, with a message built from the captured standard output first
stripped of leading and trailing whitespace, then split into lines, empty
lines dropped, each remaining line prefixed with the label (derived from the
last dot-separated segment of the host) and a space, and joined with
newlines; both the probe and the command invocation occur. -/
theorem c2_success_output (user ip command probeOut probeErr out err : Str) :
    execute_ssh_command false user ip command (ProcResult.completed 0 probeOut probeErr)
      (ProcResult.completed 0 out err) =
      ⟨Except.ok (true, joinSep '\n'
        (((pySplitChar '\n' (pyStripWs out)).filter (fun l => !l.isEmpty)).map
          (fun l => make_label ip ++ ' ' :: l))), 2⟩ := by
  rfl

/-- Boolean substring test: containsSub pat l is true when pat occurs as a
contiguous run inside l. -/
def containsSub (pat : Str) : Str → Bool
  | [] => pat.isEmpty
  | c :: rest => startsWith pat (c :: rest) || containsSub pat rest

lemma not_sub_of_containsSub_false {pat : Str} :
    ∀ l : Str, containsSub pat l = false → ∀ x y : Str, l ≠ x ++ pat ++ y := by
  intro l
  induction l with
  | nil =>
    intro h x y he
    have hlen := congrArg List.length he
    simp only [List.length_nil, List.length_append] at hlen
    have hpat : pat = [] := List.eq_nil_of_length_eq_zero (by omega)
    rw [hpat] at h
    exact absurd h (by simp [containsSub])
  | cons c rest ih =>
    intro h x y he
    have h2 : startsWith pat (c :: rest) = false ∧ containsSub pat rest = false :=
      Bool.or_eq_false_iff.mp h
    cases x with
    | nil =>
      have hsw : startsWith pat (c :: rest) = true := by
        rw [show c :: rest = pat ++ y from by simpa using he]
        exact startsWith_append_self pat y
      rw [hsw] at h2
      exact Bool.noConfusion h2.1
    | cons x0 xs =>
      have he2 : c :: rest = x0 :: (xs ++ pat ++ y) := by simpa using he
      have hrest : rest = xs ++ pat ++ y := by
        injection he2
      exact ih h2.2 xs y hrest

/-- Claim C3 counterexample: with captured stderr consisting of x followed by
a newline, the source strips the stderr (line 222) before placing it in the
message, so the message does not include the captured error output itself,
contradicting the claim. -/
theorem c3_counterexample :
    (execute_ssh_command false "root".data "10.0.0.1".data "bad".data
      (ProcResult.completed 0 [] []) (ProcResult.completed 1 [] "x\n".data)).result =
      Except.ok (false,
        "[Client 1 | 10.0.0.1] Error: Command failed with status 1\n[Client 1 | 10.0.0.1] Output: x".data)
    ∧ ¬ ∃ x y : Str,
        "[Client 1 | 10.0.0.1] Error: Command failed with status 1\n[Client 1 | 10.0.0.1] Output: x".data =
          x ++ "x\n".data ++ y := by
  refine ⟨by decide, ?_⟩
  rintro ⟨x, y, hxy⟩
  exact not_sub_of_containsSub_false _ (by decide) x y hxy

/-- Claim C3 (amended): a command-phase timeout yields success false with the
timed-out message; a nonzero command exit yields success false with a message
carrying the exit status and the captured error output stripped of leading
and trailing whitespace, or Unknown error when no error output was captured;
in both cases two invocations occurred. -/
theorem c3_command_failure (user ip command probeOut probeErr out err : Str) (rc : Int)
    (h : rc ≠ 0) :
    (execute_ssh_command false user ip command (ProcResult.completed 0 probeOut probeErr)
        ProcResult.timeout =
      ⟨Except.ok (false, make_label ip ++ " Error: Command timed out".data), 2⟩)
    ∧ (execute_ssh_command false user ip command (ProcResult.completed 0 probeOut probeErr)
        (ProcResult.completed rc out err) =
      ⟨Except.ok (false, make_label ip ++ " Error: Command failed with status ".data ++
        str rc ++ '\n' :: (make_label ip ++ " Output: ".data ++
          (if err.isEmpty then "Unknown error".data else pyStripWs err))), 2⟩)
    ∧ (∀ msg : Str,
        (execute_ssh_command false user ip command
            (ProcResult.completed 0 probeOut probeErr)
            (ProcResult.completed rc out err)).result = Except.ok (false, msg) →
        (∃ x y : Str, msg = x ++ str rc ++ y)
        ∧ (∃ x y : Str, msg = x ++
            (if err.isEmpty then "Unknown error".data else pyStripWs err) ++ y)
        ∧ (err = [] → ∃ x y : Str, msg = x ++ "Unknown error".data ++ y)) := by
  have h2 : execute_ssh_command false user ip command
      (ProcResult.completed 0 probeOut probeErr) (ProcResult.completed rc out err) =
      ⟨Except.ok (false, make_label ip ++ " Error: Command failed with status ".data ++
        str rc ++ '\n' :: (make_label ip ++ " Output: ".data ++
          (if err.isEmpty then "Unknown error".data else pyStripWs err))), 2⟩ := by
    simp [execute_ssh_command, h]
  refine ⟨rfl, h2, ?_⟩
  intro msg hmsg
  rw [h2] at hmsg
  have hm : msg = make_label ip ++ " Error: Command failed with status ".data ++
      str rc ++ '\n' :: (make_label ip ++ " Output: ".data ++
        (if err.isEmpty then "Unknown error".data else pyStripWs err)) := by
    have := Except.ok.inj hmsg
    exact (Prod.mk.injEq _ _ _ _).mp this |>.2.symm
  subst hm
  refine ⟨⟨make_label ip ++ " Error: Command failed with status ".data,
      '\n' :: (make_label ip ++ " Output: ".data ++
        (if err.isEmpty then "Unknown error".data else pyStripWs err)), rfl⟩, ?_, ?_⟩
  · refine ⟨make_label ip ++ " Error: Command failed with status ".data ++ str rc ++
      '\n' :: (make_label ip ++ " Output: ".data), [], ?_⟩
    simp [List.append_assoc]
  · intro he
    subst he
    refine ⟨make_label ip ++ " Error: Command failed with status ".data ++ str rc ++
      '\n' :: (make_label ip ++ " Output: ".data), [], ?_⟩
    simp [List.append_assoc]

/-- Witness for c3_command_failure at exit status 127 with empty stderr. -/
theorem c3_command_failure_witness :
    execute_ssh_command false "root".data "10.0.0.1".data "bad".data
      (ProcResult.completed 0 [] []) (ProcResult.completed 127 [] []) =
      ⟨Except.ok (false, make_label "10.0.0.1".data ++
        " Error: Command failed with status ".data ++ str 127 ++
        '\n' :: (make_label "10.0.0.1".data ++ " Output: ".data ++
          (if ([] : Str).isEmpty then "Unknown error".data else pyStripWs []))), 2⟩ :=
  (c3_command_failure "root".data "10.0.0.1".data "bad".data [] [] [] [] 127
    (by decide)).2.1

lemma process_results_shutdown : ∀ l : List (Str × ExecOutcome),
    process_results true l = [] := by
  intro l
  cases l with
  | nil => rfl
  | cons p rest =>
    obtain ⟨ip, o⟩ := p
    rfl

/-- Claim C8: if the shutdown flag is already set, _execute_ssh_command
returns success false with the aborted message, label set normally, without
any remote-shell invocation; and execute_commands with the flag set before
dispatch emits zero results for any input. -/
theorem c8_shutdown :
    (∀ (user ip command : Str) (probe cmdRun : ProcResult),
      execute_ssh_command true user ip command probe cmdRun =
        ⟨Except.ok (false, make_label ip ++ " Aborted due to shutdown".data), 0⟩)
    ∧ (∀ (primary secondary : List Str) (pu su cmd : Str)
        (proc : Str × Str × Str → ProcResult × ProcResult),
        execute_commands true primary secondary pu su cmd proc = []) := by
  constructor
  · intro user ip command probe cmdRun
    rfl
  · intro primary secondary pu su cmd proc
    unfold execute_commands
    split
    · rfl
    · split
      · rfl
      · exact process_results_shutdown _

lemma foldl_append_tasks {α β : Type} (f : α → β) :
    ∀ (l : List α) (init : List β),
      l.foldl (fun acc x => acc ++ [f x]) init = init ++ l.map f := by
  intro l
  induction l with
  | nil => intro init; simp
  | cons x xs ih =>
    intro init
    simp only [List.foldl_cons, List.map_cons]
    rw [ih (init ++ [f x])]
    simp [List.append_assoc]

lemma execute_commands_tasks_eq (p s : List Str) (pu su cmd : Str) :
    execute_commands_tasks p s pu su cmd =
      p.map (fun ip => make_task pu ip cmd) ++ s.map (fun ip => make_task su ip cmd) := by
  unfold execute_commands_tasks
  rw [foldl_append_tasks (fun ip => make_task pu ip cmd) p [],
    foldl_append_tasks (fun ip => make_task su ip cmd) s _]
  simp [List.append_assoc]

/-- Claim C4: the task loop of execute_commands yields all primary tasks and
then all secondary tasks, each group in host input order; each task carries
the group user template and the shared command template with the placeholder
replaced by the host suffix (its last dot-separated segment); empty host
lists contribute no tasks. -/
theorem c4_build_tasks (p s : List Str) (pu su cmd : Str) :
    (execute_commands_tasks p s pu su cmd).length = p.length + s.length
    ∧ (∀ i, ∀ h : i < p.length, (execute_commands_tasks p s pu su cmd)[i]? =
        some (substitute_variables pu (client_num p[i]), p[i],
          substitute_variables cmd (client_num p[i])))
    ∧ (∀ j, ∀ h : j < s.length, (execute_commands_tasks p s pu su cmd)[p.length + j]? =
        some (substitute_variables su (client_num s[j]), s[j],
          substitute_variables cmd (client_num s[j])))
    ∧ execute_commands_tasks [] [] pu su cmd = [] := by
  have he := execute_commands_tasks_eq p s pu su cmd
  refine ⟨?_, ?_, ?_, rfl⟩
  · rw [he]; simp
  · intro i h
    rw [he, List.getElem?_append_left (by simpa using h), List.getElem?_map,
      List.getElem?_eq_getElem h]
    rfl
  · intro j h
    rw [he, List.getElem?_append_right (by simp), List.length_map]
    have hidx : p.length + j - p.length = j := by omega
    rw [hidx, List.getElem?_map, List.getElem?_eq_getElem h]
    rfl

/-- Witness for c4_build_tasks: the first task of the worked example from the
specification. -/
theorem c4_build_tasks_witness :
    (execute_commands_tasks ["10.200.142.1".data, "10.200.142.2".data] []
      "user$CLIENT_NUM".data "admin".data "echo $CLIENT_NUM".data)[0]? =
      some ("user1".data, "10.200.142.1".data, "echo 1".data) := by
  have h := (c4_build_tasks ["10.200.142.1".data, "10.200.142.2".data] []
    "user$CLIENT_NUM".data "admin".data "echo $CLIENT_NUM".data).2.1 0 (by decide)
  rw [h]
  decide
